import Mathlib

/-!
Verification of the CREATE2 vanity-address generator
(`scripts/vanity/create2/vanity_generator_create2.rs`).

Bytes are modelled as `Nat` (each intended `< 256`), byte strings as
`List Nat`; the fixed-width `H256` / `Address` types of the source become
lists whose lengths are carried as hypotheses where they matter.  The
keccak256 digest primitive is an external library call in the source
(`ethers::utils::keccak256`), so every definition that hashes takes the
digest as an explicit function argument `keccak : List Nat → List Nat`;
the theorems hold for every digest function.
-/

/-- The hardcoded CreateX factory contract address
`0xba5Ed099633D3B313e4D5F7bdc1305d3c28ba5Ed` as its 20 bytes. -/
def factory_address : List Nat :=
  [0xba, 0x5e, 0xd0, 0x99, 0x63, 0x3d, 0x3b, 0x31, 0x3e, 0x4d,
   0x5f, 0x7b, 0xdc, 0x13, 0x05, 0xd3, 0xc2, 0x8b, 0xa5, 0xed]

/-- `ethers::abi::encode(&[Token::Address(deployer), Token::FixedBytes(salt)])`
for a 20-byte address and a 32-byte fixed-bytes value: the address is
left-padded with 12 zero bytes to one 32-byte word, the fixed bytes form the
second 32-byte word unchanged. -/
def abi_encode_address_bytes32 (deployer salt : List Nat) : List Nat :=
  List.replicate 12 0 ++ deployer ++ salt

/-- `Create2VanityHelper::generate_guarded_salt`: a 32-byte salt whose first
20 bytes are the deployer address, whose byte 20 is `0x00` and whose last
11 bytes are the random part. -/
def generate_guarded_salt (deployer random_part : List Nat) : List Nat :=
  deployer ++ 0 :: random_part

/-- `Create2VanityHelper::calculate_create_x_salt`: the CreateX guarding
transform.  When the salt's first 20 bytes equal the deployer address and its
byte 20 is zero, the effective salt is the digest of the abi encoding of
(deployer, salt); otherwise the salt passes through unchanged. -/
def calculate_create_x_salt (keccak : List Nat → List Nat)
    (deployer salt : List Nat) : List Nat :=
  if salt.take 20 = deployer ∧ salt.getD 20 0 = 0 then
    keccak (abi_encode_address_bytes32 deployer salt)
  else
    salt

/-- The CREATE2 preimage built by `compute_create2_address`:
`0xff ++ factory_address ++ guarded_salt ++ init_code_hash`. -/
def create2_preimage (keccak : List Nat → List Nat)
    (deployer init_code_hash salt : List Nat) : List Nat :=
  0xff :: (factory_address ++ calculate_create_x_salt keccak deployer salt
    ++ init_code_hash)

/-- `Create2VanityHelper::compute_create2_address`: hash the CREATE2
preimage and keep the bytes from index 12 on (the last 20 of the 32-byte
digest). -/
def compute_create2_address (keccak : List Nat → List Nat)
    (deployer init_code_hash salt : List Nat) : List Nat :=
  (keccak (create2_preimage keccak deployer init_code_hash salt)).drop 12

/-- A stand-in digest function used only to instantiate witnesses on
concrete inputs: it returns a fixed 32-byte list. -/
def keccakStub (input : List Nat) : List Nat :=
  List.replicate 32 (input.length % 256)

/-- A pattern specification as read from the patterns file: a kind string
and a value string. -/
structure Pattern where
  pattern_type : String
  value : String
deriving DecidableEq

/-- The regex source string built for a pattern in the `regex_patterns`
map: the value is interpolated raw into a kind-specific template
(`format!` with the `(?i)` case-insensitivity flag); unknown kinds fall
back to the prefix template. -/
def kindRegexString (ty value : String) : String :=
  if ty = "prefix" then "(?i)^0x" ++ value
  else if ty = "suffix" then "(?i)" ++ value ++ "$"
  else if ty = "contains" then "(?i)" ++ value
  else if ty = "regex" then "(?i)" ++ value
  else "(?i)^0x" ++ value

/-- The human-readable description built for a pattern in the
`regex_patterns` map. -/
def kindDescription (ty value : String) : String :=
  if ty = "prefix" then "starts with " ++ value
  else if ty = "suffix" then "ends with " ++ value
  else if ty = "contains" then "contains " ++ value
  else if ty = "regex" then "matches regex " ++ value
  else "starts with " ++ value

/-- One pattern's compilation step: `Regex::new(template).unwrap()` either
yields the compiled pattern (kept with its description) or panics; the
panic is modelled as `none`.  `compiles` is the external regex library's
compilation-success predicate on regex source strings. -/
def compilePattern (compiles : String → Bool) (p : Pattern) :
    Option (String × String) :=
  if compiles (kindRegexString p.pattern_type p.value) then
    some (kindDescription p.pattern_type p.value,
          kindRegexString p.pattern_type p.value)
  else
    none

/-- The `regex_patterns` construction: map `compilePattern` over the loaded
pattern list; a panic anywhere aborts the whole startup, modelled as the
traversal returning `none`. -/
def regex_patterns (compiles : String → Bool) :
    List Pattern → Option (List (String × String))
  | [] => some []
  | p :: ps =>
    match compilePattern compiles p, regex_patterns compiles ps with
    | some c, some cs => some (c :: cs)
    | _, _ => none

/-- Parenthesis-balance scan over a regex source string (depth counter). -/
def parenScan : List Char → Nat → Bool
  | [], d => d == 0
  | c :: cs, d =>
    if c = '(' then parenScan cs (d + 1)
    else if c = ')' then (if d = 0 then false else parenScan cs (d - 1))
    else parenScan cs d

/-- Modelled from the spec: the external regex library's
compilation-success predicate (`Regex::new` of the Rust `regex` crate,
which is not code of this repository).  The spec's own test fixture fixes
the behaviour needed here: "an invalid `regex` pattern (unbalanced
parenthesis) fails compilation with a reported error".  The model accepts
exactly the strings whose parentheses are balanced; escape sequences do not
occur in the inputs the claims use. -/
def regexAccepts (s : String) : Bool :=
  parenScan s.toList 0

/-- Hex digit character for a value below 16 (lowercase, as `hex::encode`
and the `Debug` formatting of addresses produce). -/
def hexChar (n : Nat) : Char :=
  if n < 10 then Char.ofNat (48 + n) else Char.ofNat (87 + n)

/-- Two hex digit characters of one byte. -/
def byteToHex (b : Nat) : List Char :=
  [hexChar (b / 16), hexChar (b % 16)]

/-- `hex::encode` over a byte string: lowercase hex text. -/
def hexEncode (l : List Nat) : String :=
  String.mk ((l.map byteToHex).flatten)

/-- `format!("{:?}", address)` for an ethers `Address`: `0x` followed by the
full lowercase hex text of its 20 bytes. -/
def formatAddress (address : List Nat) : String :=
  "0x" ++ hexEncode address

/-- A found match as the source's `VanityResult`: hex salt, hex address,
matched pattern description, and the loop variable `attempt` at which it was
found. -/
structure VanityResult where
  salt : String
  address : String
  pattern : String
  attempt : Nat
deriving DecidableEq

/-- The per-trial pattern loop's trace: the descriptions of the patterns
actually tested (`is_match` evaluated), and the winning description.  The
loop `break`s right after the first hit. -/
def matchScan (patterns : List (String × (String → Bool))) (addr : String) :
    List String × Option String :=
  match patterns with
  | [] => ([], none)
  | (desc, m) :: rest =>
    if m addr then ([desc], some desc)
    else
      let r := matchScan rest addr
      (desc :: r.1, r.2)

/-- The per-trial pattern loop's emitted records: for the first matching
pattern a `VanityResult` is built (salt hex, address text, description,
current attempt) and the loop `break`s; with no hit nothing is emitted. -/
def patternLoop (patterns : List (String × (String → Bool)))
    (saltHex addrStr : String) (attempt : Nat) : List VanityResult :=
  match patterns with
  | [] => []
  | (desc, m) :: rest =>
    if m addrStr then [⟨saltHex, addrStr, desc, attempt⟩]
    else patternLoop rest saltHex addrStr attempt

/-- `let progress_update_interval = 50_000;` of the worker loop. -/
def progress_update_interval : Nat := 50000

/-- Everything a worker thread closes over: the deployment context, its
assigned range `[start, stop)`, the compiled patterns (description plus the
regex `is_match` predicate on the address text), the per-attempt random
11 bytes, and the outcome oracles of the two channels' sends (indexed by
how many sends that channel has attempted so far). -/
structure WorkerParams where
  keccak : List Nat → List Nat
  deployer : List Nat
  init_code_hash : List Nat
  start : Nat
  stop : Nat
  patterns : List (String × (String → Bool))
  randomOf : Nat → List Nat
  matchOk : Nat → Bool
  progressOk : Nat → Bool

/-- The worker thread's mutable state: `local_results` and
`last_progress_update` as in the source, plus the trace of every attempted
channel send (payload and whether `blocking_send` succeeded) and the count
of loop iterations executed. -/
structure WorkerState where
  local_results : List VanityResult := []
  last_progress_update : Nat := 0
  matchSends : List (VanityResult × Bool) := []
  progressSends : List (Nat × Bool) := []
  trials : Nat := 0
deriving DecidableEq

/-- One iteration of the worker's `for attempt in range.start..range.end`
loop: build the guarded salt from the attempt's random bytes, derive the
address, format it, run the pattern loop (recording the match-channel send
of any emitted record; a failed send is only logged, nothing else changes),
then emit a batch progress delta when at least `progress_update_interval`
trials have passed since the last update. -/
def workerTrialStep (P : WorkerParams) (s : WorkerState) (attempt : Nat) :
    WorkerState :=
  let salt := generate_guarded_salt P.deployer (P.randomOf attempt)
  let address := compute_create2_address P.keccak P.deployer P.init_code_hash salt
  let address_str := formatAddress address
  let emitted := patternLoop P.patterns ("0x" ++ hexEncode salt) address_str attempt
  let s1 : WorkerState :=
    { s with
      local_results := s.local_results ++ emitted
      matchSends := s.matchSends
        ++ emitted.map (fun r => (r, P.matchOk s.matchSends.length))
      trials := s.trials + 1 }
  if attempt - P.start ≥ s1.last_progress_update + progress_update_interval then
    { s1 with
      last_progress_update := attempt - P.start
      progressSends := s1.progressSends
        ++ [(attempt - P.start - s1.last_progress_update,
             P.progressOk s1.progressSends.length)] }
  else
    s1

/-- The whole worker thread body: run the trial loop over the assigned
range, then send the final remainder progress delta when it is positive. -/
def runWorker (P : WorkerParams) : WorkerState :=
  let s := (List.range' P.start (P.stop - P.start)).foldl (workerTrialStep P) {}
  if P.stop - P.start - s.last_progress_update > 0 then
    { s with
      progressSends := s.progressSends
        ++ [(P.stop - P.start - s.last_progress_update,
             P.progressOk s.progressSends.length)] }
  else
    s

/-- The record one trial of the worker would emit, as a function of the
attempt's loop variable: the first matching pattern's description packaged
with the trial's salt hex, address text and the loop variable itself. -/
def trialRecord (P : WorkerParams) (attempt : Nat) : Option VanityResult :=
  let salt := generate_guarded_salt P.deployer (P.randomOf attempt)
  let address := compute_create2_address P.keccak P.deployer P.init_code_hash salt
  (P.patterns.find? (fun p => p.2 (formatAddress address))).map
    (fun p => ⟨"0x" ++ hexEncode salt, formatAddress address, p.1, attempt⟩)

/-- The records that actually reach the coordinator over the match channel:
exactly the payloads of the worker's successful sends, in send order (a
failed `blocking_send` delivers nothing — tokio mpsc semantics). -/
def receivedResults (s : WorkerState) : List VanityResult :=
  (s.matchSends.filter (fun a => a.2)).map Prod.fst

/-- The worker's thread-end printout, which uses the private
`local_results` only through its length: `none` below five matches,
otherwise the worker number and the count. -/
def finalReport (workerIdx : Nat) (s : WorkerState) : Option (Nat × Nat) :=
  if 5 ≤ s.local_results.length then some (workerIdx + 1, s.local_results.length)
  else none

/-- The persisted `OutputResults` artifact. -/
structure OutputResults where
  timestamp : String
  deployer : String
  code_hash : String
  results : List VanityResult
deriving DecidableEq

/-- Observable events of the ctrl-c handler, in order. -/
inductive HandlerEvent where
  | setRunningFalse : HandlerEvent
  | writeAttempt : OutputResults → HandlerEvent
  | writeSucceeded : HandlerEvent
  | writeFailed : HandlerEvent
  | exitProcess : HandlerEvent
deriving DecidableEq

/-- The ctrl-c handler: clear the running flag; with a non-empty result
log, build an `OutputResults` snapshot of the current results and attempt
one `save_results` write (logging the error if it fails); then exit the
process.  `ts` is the wall-clock timestamp, `writeOk` the outcome of the
single file write. -/
def ctrlcHandler (ts deployer code_hash : String)
    (results : List VanityResult) (writeOk : Bool) : List HandlerEvent :=
  HandlerEvent.setRunningFalse ::
    ((if results.isEmpty then []
      else HandlerEvent.writeAttempt ⟨ts, deployer, code_hash, results⟩ ::
        [if writeOk then HandlerEvent.writeSucceeded else HandlerEvent.writeFailed])
      ++ [HandlerEvent.exitProcess])

/-- Whether a handler event is the process exit. -/
def isExitEvent : HandlerEvent → Bool
  | HandlerEvent.exitProcess => true
  | _ => false

/-- The write attempts a handler trace contains, with their snapshots. -/
def attemptedSummaries (trace : List HandlerEvent) : List OutputResults :=
  trace.filterMap (fun ev =>
    match ev with
    | HandlerEvent.writeAttempt o => some o
    | _ => none)

/-- `let chunk_size = max_attempts / num_threads as u64;`. -/
def chunk_size (B N : Nat) : Nat := B / N

/-- Worker `i`'s slice start: `i as u64 * chunk_size`. -/
def sliceStart (B N i : Nat) : Nat := i * chunk_size B N

/-- Worker `i`'s slice end: the full budget `B` for the last worker,
`(i + 1) * chunk_size` otherwise. -/
def sliceEnd (B N i : Nat) : Nat :=
  if i = N - 1 then B else (i + 1) * chunk_size B N

/-- The `ranges` vector the driver builds: one `(start, end)` slice per
worker index. -/
def searchRanges (B N : Nat) : List (Nat × Nat) :=
  (List.range N).map (fun i => (sliceStart B N i, sliceEnd B N i))

/-- Concrete worker parameters for the C7 counterexample: three trials, a
pattern matching every address, and a match channel whose sends all fail. -/
def cP7 : WorkerParams where
  keccak := keccakStub
  deployer := List.replicate 20 0
  init_code_hash := List.replicate 32 0
  start := 0
  stop := 3
  patterns := [("starts with any", fun _ => true)]
  randomOf := fun _ => List.replicate 11 0
  matchOk := fun _ => false
  progressOk := fun _ => true

/-- Concrete worker parameters for the C8 counterexample: the second of two
workers splitting a budget of 10 (slice `[5, 10)`), a pattern matching
every address, all sends succeeding. -/
def cP8 : WorkerParams where
  keccak := keccakStub
  deployer := List.replicate 20 0
  init_code_hash := List.replicate 32 0
  start := sliceStart 10 2 1
  stop := sliceEnd 10 2 1
  patterns := [("starts with any", fun _ => true)]
  randomOf := fun _ => List.replicate 11 0
  matchOk := fun _ => true
  progressOk := fun _ => true

/-- Concrete worker parameters for the C10 witness: one trial, a pattern
matching every address, and a failing match channel. -/
def cP10 : WorkerParams where
  keccak := keccakStub
  deployer := List.replicate 20 0
  init_code_hash := List.replicate 32 0
  start := 0
  stop := 1
  patterns := [("starts with any", fun _ => true)]
  randomOf := fun _ => List.replicate 11 0
  matchOk := fun _ => false
  progressOk := fun _ => true

/-- Claim C1: the derived address is the last 20 bytes of
digest(0xff ‖ factoryIdentity ‖ EffectiveSalt ‖ codeHash), where the
effective salt is `calculate_create_x_salt` of the candidate salt; the
derivation is a pure function (a Lean function) of the context and the
candidate salt.  The hypothesis records that the digest is 32 bytes wide,
as keccak256 is. -/
theorem compute_create2_address_spec (keccak : List Nat → List Nat)
    (deployer init_code_hash salt : List Nat)
    (hlen : (keccak (create2_preimage keccak deployer init_code_hash salt)).length = 32) :
    compute_create2_address keccak deployer init_code_hash salt
      = (keccak (create2_preimage keccak deployer init_code_hash salt)).drop
          ((keccak (create2_preimage keccak deployer init_code_hash salt)).length - 20)
    ∧ (compute_create2_address keccak deployer init_code_hash salt).length = 20 := by
  constructor
  · rw [hlen]
    rfl
  · simp [compute_create2_address, hlen]

/-- Witness for C1 at a concrete context and salt, with the stub digest. -/
theorem compute_create2_address_spec_witness :
    (compute_create2_address keccakStub (List.replicate 20 0)
      (List.replicate 32 0) (List.replicate 32 0)).length = 20 :=
  (compute_create2_address_spec keccakStub (List.replicate 20 0)
    (List.replicate 32 0) (List.replicate 32 0) (by decide)).2

/-- Claim C2: the guarding transform.  For a 32-byte candidate salt: when its
first 20 bytes equal the deployer and byte 20 is zero, the effective salt is
the digest of the abi encoding of (deployer, salt); for any other salt shape
the candidate salt passes through unchanged.  Moreover every salt this
program generates (`generate_guarded_salt`) takes the digest branch. -/
theorem calculate_create_x_salt_spec (keccak : List Nat → List Nat)
    (deployer salt : List Nat) (_hs : salt.length = 32) :
    (salt.take 20 = deployer ∧ salt.getD 20 0 = 0 →
      calculate_create_x_salt keccak deployer salt
        = keccak (abi_encode_address_bytes32 deployer salt))
    ∧ (¬ (salt.take 20 = deployer ∧ salt.getD 20 0 = 0) →
      calculate_create_x_salt keccak deployer salt = salt)
    ∧ (∀ random_part : List Nat, deployer.length = 20 →
      calculate_create_x_salt keccak deployer (generate_guarded_salt deployer random_part)
        = keccak (abi_encode_address_bytes32 deployer
            (generate_guarded_salt deployer random_part))) := by
  refine ⟨fun h => ?_, fun h => ?_, fun random_part hd => ?_⟩
  · unfold calculate_create_x_salt
    rw [if_pos h]
  · unfold calculate_create_x_salt
    rw [if_neg h]
  · have htake : (generate_guarded_salt deployer random_part).take 20 = deployer := by
      simp [generate_guarded_salt, List.take_append_eq_append_take, hd]
    have hguard : (generate_guarded_salt deployer random_part).getD 20 0 = 0 := by
      unfold generate_guarded_salt
      rw [List.getD_eq_getElem?_getD, List.getElem?_append_right (by omega), hd]
      simp
    unfold calculate_create_x_salt
    rw [if_pos ⟨htake, hguard⟩]

/-- Witness for C2 at a concrete 32-byte salt built over a concrete
deployer, with the stub digest. -/
theorem calculate_create_x_salt_spec_witness :
    calculate_create_x_salt keccakStub (List.replicate 20 7)
        (List.replicate 20 7 ++ 0 :: List.replicate 11 3)
      = keccakStub (abi_encode_address_bytes32 (List.replicate 20 7)
          (List.replicate 20 7 ++ 0 :: List.replicate 11 3)) :=
  (calculate_create_x_salt_spec keccakStub (List.replicate 20 7)
    (List.replicate 20 7 ++ 0 :: List.replicate 11 3) (by decide)).1 (by decide)

/-- Claim C3 (amended): pattern compilation fails exactly when some
pattern's kind-template-interpolated regex source string does not compile —
for every kind, not only the regex kind, since the value is interpolated
raw into the template; on success every pattern yields its description and
regex string in order. -/
theorem regex_patterns_spec (compiles : String → Bool) (ps : List Pattern) :
    regex_patterns compiles ps
      = if ps.any (fun p => !compiles (kindRegexString p.pattern_type p.value)) then
          none
        else
          some (ps.map (fun p => (kindDescription p.pattern_type p.value,
            kindRegexString p.pattern_type p.value))) := by
  induction ps with
  | nil => rfl
  | cons p ps ih =>
    unfold regex_patterns
    rw [ih]
    by_cases h : compiles (kindRegexString p.pattern_type p.value)
    · by_cases h2 : ps.any (fun p => !compiles (kindRegexString p.pattern_type p.value))
      · simp [compilePattern, h, h2]
      · simp [compilePattern, h, h2]
    · simp [compilePattern, h]

/-- Counterexample to claim C3 as stated: a pattern of kind `prefix` (not
`regex`) whose value is a lone opening parenthesis fails compilation, since
the interpolated template is the invalid regex source `(?i)^0x(`. -/
theorem regex_patterns_prefix_failure :
    regex_patterns regexAccepts [⟨"prefix", "("⟩] = none
    ∧ ("prefix" : String) ≠ "regex"
    ∧ regexAccepts (kindRegexString "prefix" "(") = false := by
  refine ⟨by decide, by decide, by decide⟩

/-- Claim C4: the pattern loop returns the first matcher in declaration
order that holds (`find?` order), tests no pattern beyond the first hit
(the tested-descriptions trace is the non-matching front plus at most the
winner), emits the winner's description in the built record, and emits at
most one record per trial. -/
theorem first_match_wins (patterns : List (String × (String → Bool)))
    (addr saltHex : String) (attempt : Nat) :
    (matchScan patterns addr).2
        = (patterns.find? (fun p => p.2 addr)).map Prod.fst
    ∧ (matchScan patterns addr).1
        = (patterns.takeWhile (fun p => !p.2 addr)).map Prod.fst
          ++ ((patterns.find? (fun p => p.2 addr)).map Prod.fst).toList
    ∧ patternLoop patterns saltHex addr attempt
        = ((patterns.find? (fun p => p.2 addr)).map
            (fun p => ⟨saltHex, addr, p.1, attempt⟩)).toList
    ∧ (patternLoop patterns saltHex addr attempt).length ≤ 1 := by
  induction patterns with
  | nil => simp [matchScan, patternLoop]
  | cons p ps ih =>
    obtain ⟨d, m⟩ := p
    cases h : m addr with
    | true => simp [matchScan, patternLoop, h]
    | false =>
      have hlen : ∀ o : Option (String × (String → Bool)),
          (o.map (fun p =>
            VanityResult.mk saltHex addr p.1 attempt)).toList.length ≤ 1 := by
        intro o
        cases o <;> simp
      simp [matchScan, patternLoop, h, ih.1, ih.2.1, ih.2.2.1, hlen]

/-- Sum of a function over `List.range N` when the function is constant on
the range. -/
theorem sum_map_range_const (N c : Nat) (f : Nat → Nat) (h : ∀ i, i < N → f i = c) :
    ((List.range N).map f).sum = N * c := by
  induction N with
  | zero => simp
  | succ n ih =>
    rw [List.range_succ, List.map_append, List.sum_append,
      ih (fun i hi => h i (by omega))]
    simp [h n (by omega), Nat.succ_mul]

/-- The last-but-one slice boundary stays within the budget:
`(N - 1) * (B / N) ≤ B`. -/
theorem pred_mul_chunk_le (B N : Nat) : (N - 1) * chunk_size B N ≤ B := by
  calc (N - 1) * chunk_size B N
      ≤ N * chunk_size B N := Nat.mul_le_mul_right _ (by omega)
    _ = chunk_size B N * N := Nat.mul_comm _ _
    _ ≤ B := Nat.div_mul_le_self B N

/-- Claim C6: for every worker count `N ≥ 1` and budget `B`, the driver's
`ranges` vector partitions the budget: the slice sizes sum to exactly `B`,
slices are ordered end-before-start (hence pairwise disjoint as half-open
intervals), and each slice is well-formed.  This covers `B` not divisible
by `N` and `B < N` (then every slice but the last is empty). -/
theorem attempt_budget_partition (B N : Nat) (hN : 1 ≤ N) :
    ((searchRanges B N).map (fun r => r.2 - r.1)).sum = B
    ∧ (∀ i j, i < j → j < N → sliceEnd B N i ≤ sliceStart B N j)
    ∧ (∀ i, i < N → sliceStart B N i ≤ sliceEnd B N i) := by
  obtain ⟨m, rfl⟩ : ∃ m, N = m + 1 := ⟨N - 1, by omega⟩
  have hchunk : (m + 1 - 1) * chunk_size B (m + 1) ≤ B := pred_mul_chunk_le B (m + 1)
  refine ⟨?_, ?_, ?_⟩
  · have hchunk2 : m * chunk_size B (m + 1) ≤ B := by
      simpa using hchunk
    unfold searchRanges
    rw [List.map_map, List.range_succ, List.map_append, List.sum_append]
    have hconst : ((List.range m).map
        ((fun r : Nat × Nat => r.2 - r.1) ∘
          fun i => (sliceStart B (m + 1) i, sliceEnd B (m + 1) i))).sum
        = m * chunk_size B (m + 1) := by
      apply sum_map_range_const
      intro i hi
      have hne : i ≠ m + 1 - 1 := by omega
      simp only [Function.comp_apply, sliceStart, sliceEnd, if_neg hne, Nat.succ_mul]
      omega
    have hlast : ((fun r : Nat × Nat => r.2 - r.1) ∘
          fun i => (sliceStart B (m + 1) i, sliceEnd B (m + 1) i)) m
        = B - m * chunk_size B (m + 1) := by
      simp [sliceStart, sliceEnd]
    rw [hconst]
    simp only [List.map_cons, List.map_nil, List.sum_cons, List.sum_nil, hlast]
    exact Nat.add_sub_cancel' hchunk2
  · intro i j hij hjN
    have : i ≠ m + 1 - 1 := by omega
    unfold sliceStart sliceEnd
    rw [if_neg this]
    exact Nat.mul_le_mul_right _ (by omega)
  · intro i hiN
    unfold sliceStart sliceEnd
    by_cases h : i = m + 1 - 1
    · rw [if_pos h]
      subst h
      simpa using hchunk
    · rw [if_neg h]
      exact Nat.mul_le_mul_right _ (by omega)

/-- Witness for C6: two workers over a budget of 7 (not divisible), slice
sizes sum to 7. -/
theorem attempt_budget_partition_witness :
    ((searchRanges 7 2).map (fun r => r.2 - r.1)).sum = 7 :=
  (attempt_budget_partition 7 2 (by decide)).1

/-- Claim C9 (amended): the ctrl-c handler attempts exactly one
`RunSummary` write — of the current result log — before the process exit
event when the log is non-empty, and attempts none when the log is empty;
the attempt's success is not part of the guarantee (a failed write is
logged and the process still exits). -/
theorem ctrlc_flush_spec (ts deployer code_hash : String)
    (results : List VanityResult) (writeOk : Bool) :
    attemptedSummaries (ctrlcHandler ts deployer code_hash results writeOk)
      = (if results.isEmpty then [] else [⟨ts, deployer, code_hash, results⟩])
    ∧ attemptedSummaries ((ctrlcHandler ts deployer code_hash results writeOk).takeWhile
        (fun ev => !isExitEvent ev))
      = (if results.isEmpty then [] else [⟨ts, deployer, code_hash, results⟩]) := by
  cases results <;> cases writeOk <;>
    simp [ctrlcHandler, attemptedSummaries, isExitEvent]

/-- Counterexample to claim C9 as stated: cancellation with a non-empty
result log and a failing disk write terminates the process with a write
attempted but never a successful one. -/
theorem ctrlc_write_failure_no_success :
    HandlerEvent.writeSucceeded
        ∉ ctrlcHandler "ts" "dep" "hash" [⟨"s", "a", "p", 0⟩] false
    ∧ HandlerEvent.exitProcess
        ∈ ctrlcHandler "ts" "dep" "hash" [⟨"s", "a", "p", 0⟩] false
    ∧ attemptedSummaries
        (ctrlcHandler "ts" "dep" "hash" [⟨"s", "a", "p", 0⟩] false) ≠ [] := by
  refine ⟨by decide, by decide, by decide⟩

/-- One worker trial keeps the batch-delta bookkeeping invariant: the sum
of attempted progress deltas equals `last_progress_update`. -/
theorem workerTrialStep_progress_sum (P : WorkerParams) (s : WorkerState) (a : Nat)
    (h1 : (s.progressSends.map Prod.fst).sum = s.last_progress_update) :
    ((workerTrialStep P s a).progressSends.map Prod.fst).sum
      = (workerTrialStep P s a).last_progress_update := by
  unfold workerTrialStep
  simp only []
  split
  · next hguard =>
    simp only [List.map_append, List.sum_append, List.map_cons, List.map_nil,
      List.sum_cons, List.sum_nil, h1]
    omega
  · simpa using h1

/-- One worker trial keeps `last_progress_update` bounded by the slice size
as long as the attempt lies inside the slice. -/
theorem workerTrialStep_last_le (P : WorkerParams) (s : WorkerState) (a n : Nat)
    (h2 : s.last_progress_update ≤ n) (ha : a < P.start + n) :
    (workerTrialStep P s a).last_progress_update ≤ n := by
  unfold workerTrialStep
  simp only []
  split
  · simp only []
    omega
  · simpa using h2

/-- The whole trial loop keeps both batch-delta invariants. -/
theorem foldl_progress_invariant (P : WorkerParams) (l : List Nat) (n : Nat) :
    ∀ s : WorkerState,
      (s.progressSends.map Prod.fst).sum = s.last_progress_update →
      s.last_progress_update ≤ n →
      (∀ a ∈ l, a < P.start + n) →
      ((l.foldl (workerTrialStep P) s).progressSends.map Prod.fst).sum
          = (l.foldl (workerTrialStep P) s).last_progress_update
        ∧ (l.foldl (workerTrialStep P) s).last_progress_update ≤ n := by
  induction l with
  | nil =>
    intro s h1 h2 _
    exact ⟨h1, h2⟩
  | cons a l ih =>
    intro s h1 h2 hl
    simp only [List.foldl_cons]
    exact ih _ (workerTrialStep_progress_sum P s a h1)
      (workerTrialStep_last_le P s a n h2 (hl a (by simp)))
      (fun b hb => hl b (by simp [hb]))

/-- Claim C5: the progress deltas a worker emits — the periodic batch
deltas plus the final remainder delta — sum to exactly the size of its
assigned slice, wherever the 50000-trial batch boundaries fall. -/
theorem worker_progress_conservation (P : WorkerParams) :
    ((runWorker P).progressSends.map Prod.fst).sum = P.stop - P.start := by
  unfold runWorker
  simp only []
  have h := foldl_progress_invariant P (List.range' P.start (P.stop - P.start))
    (P.stop - P.start) {} rfl (by simp)
    (fun a ha => by
      have := List.mem_range'_1.1 ha
      omega)
  split
  · next hfinal =>
    simp only [List.map_append, List.sum_append, List.map_cons, List.map_nil,
      List.sum_cons, List.sum_nil, h.1]
    omega
  · next hfinal =>
    omega

/-- One worker trial executes exactly one loop iteration. -/
theorem workerTrialStep_trials (P : WorkerParams) (s : WorkerState) (a : Nat) :
    (workerTrialStep P s a).trials = s.trials + 1 := by
  unfold workerTrialStep
  simp only []
  split <;> rfl

/-- The trial loop executes one iteration per assigned attempt. -/
theorem foldl_trials (P : WorkerParams) (l : List Nat) :
    ∀ s : WorkerState, (l.foldl (workerTrialStep P) s).trials = s.trials + l.length := by
  induction l with
  | nil => simp
  | cons a l ih =>
    intro s
    simp only [List.foldl_cons, List.length_cons]
    rw [ih, workerTrialStep_trials]
    omega

/-- Claim C7 (amended): a failed channel send is only logged — the worker
does not terminate its loop early.  For every send-outcome oracle
(including all-failing channels) the worker still executes exactly one
trial per attempt of its assigned slice. -/
theorem worker_runs_all_trials (P : WorkerParams) :
    (runWorker P).trials = P.stop - P.start := by
  unfold runWorker
  simp only []
  split
  · rw [foldl_trials]
    simp
  · rw [foldl_trials]
    simp

/-- Counterexample to claim C7 as stated: a worker whose every match send
fails (the first failure happening on the very first trial) nevertheless
performs all three trials of its slice and attempts all three sends,
instead of stopping after the failing trial. -/
theorem worker_continues_after_send_failure :
    (runWorker cP7).matchSends.map Prod.snd = [false, false, false]
    ∧ (runWorker cP7).trials = 3
    ∧ ¬ (runWorker cP7).trials ≤ 1 := by
  refine ⟨by decide, by decide, by decide⟩

/-- The per-trial pattern loop emits exactly the trial's record: the first
matching pattern packaged with the trial's salt hex, address text and loop
variable. -/
theorem patternLoop_eq_trialRecord (P : WorkerParams) (attempt : Nat) :
    patternLoop P.patterns
        ("0x" ++ hexEncode (generate_guarded_salt P.deployer (P.randomOf attempt)))
        (formatAddress (compute_create2_address P.keccak P.deployer P.init_code_hash
          (generate_guarded_salt P.deployer (P.randomOf attempt))))
        attempt
      = (trialRecord P attempt).toList := by
  unfold trialRecord
  simp only []
  generalize P.patterns = ps
  induction ps with
  | nil => simp [patternLoop]
  | cons p ps ih =>
    obtain ⟨d, m⟩ := p
    cases h : m (formatAddress (compute_create2_address P.keccak P.deployer
        P.init_code_hash (generate_guarded_salt P.deployer (P.randomOf attempt)))) with
    | true => simp [patternLoop, h]
    | false => simp [patternLoop, h, ih]

/-- One worker trial appends the trial's record (when there is one) to
`local_results`. -/
theorem workerTrialStep_local_results (P : WorkerParams) (s : WorkerState) (a : Nat) :
    (workerTrialStep P s a).local_results
      = s.local_results ++ (trialRecord P a).toList := by
  unfold workerTrialStep
  simp only []
  split <;> simp [patternLoop_eq_trialRecord]

/-- One worker trial records the trial's record (when there is one) as one
attempted match send. -/
theorem workerTrialStep_matchSends_fst (P : WorkerParams) (s : WorkerState) (a : Nat) :
    (workerTrialStep P s a).matchSends.map Prod.fst
      = s.matchSends.map Prod.fst ++ (trialRecord P a).toList := by
  unfold workerTrialStep
  simp only []
  split <;> (cases h : trialRecord P a <;> simp [patternLoop_eq_trialRecord, h])

/-- Over the trial loop, `local_results` collects exactly the records of
the matching attempts, in loop order. -/
theorem foldl_local_results (P : WorkerParams) (l : List Nat) :
    ∀ s : WorkerState,
      (l.foldl (workerTrialStep P) s).local_results
        = s.local_results ++ l.filterMap (trialRecord P) := by
  induction l with
  | nil => simp
  | cons a l ih =>
    intro s
    simp only [List.foldl_cons, List.filterMap_cons]
    rw [ih, workerTrialStep_local_results]
    cases trialRecord P a <;> simp

/-- Over the trial loop, the attempted match sends carry exactly the
records of the matching attempts, in loop order. -/
theorem foldl_matchSends_fst (P : WorkerParams) (l : List Nat) :
    ∀ s : WorkerState,
      (l.foldl (workerTrialStep P) s).matchSends.map Prod.fst
        = s.matchSends.map Prod.fst ++ l.filterMap (trialRecord P) := by
  induction l with
  | nil => simp
  | cons a l ih =>
    intro s
    simp only [List.foldl_cons, List.filterMap_cons]
    rw [ih, workerTrialStep_matchSends_fst]
    cases trialRecord P a <;> simp

/-- A trial's record carries the loop variable in its `attempt` field. -/
theorem trialRecord_attempt (P : WorkerParams) (a : Nat) (r : VanityResult)
    (h : trialRecord P a = some r) : r.attempt = a := by
  unfold trialRecord at h
  simp only [Option.map_eq_some'] at h
  obtain ⟨p, -, rfl⟩ := h
  rfl

/-- The worker's final remainder send touches neither `local_results` nor
the match-send trace nor the trial count. -/
theorem runWorker_core_fields (P : WorkerParams) :
    (runWorker P).local_results
        = ((List.range' P.start (P.stop - P.start)).foldl (workerTrialStep P)
            {}).local_results
    ∧ (runWorker P).matchSends
        = ((List.range' P.start (P.stop - P.start)).foldl (workerTrialStep P)
            {}).matchSends := by
  unfold runWorker
  simp only []
  split <;> exact ⟨rfl, rfl⟩

/-- Claim C8 (amended): the `attempt` field of every emitted record is the
global loop variable of the trial that found it — the worker's slice start
plus its local trial index, not the worker-local index itself.  The
worker's results are exactly the matching trials of `range' start size`,
and their `attempt` fields are exactly those trials' loop variables. -/
theorem attempt_is_global_loop_index (P : WorkerParams) :
    (runWorker P).local_results
        = (List.range' P.start (P.stop - P.start)).filterMap (trialRecord P)
    ∧ (runWorker P).local_results.map (fun r => r.attempt)
        = (List.range' P.start (P.stop - P.start)).filter
            (fun a => (trialRecord P a).isSome) := by
  have hcore := (runWorker_core_fields P).1
  have hloc : (runWorker P).local_results
      = (List.range' P.start (P.stop - P.start)).filterMap (trialRecord P) := by
    rw [hcore, foldl_local_results]
    rfl
  refine ⟨hloc, ?_⟩
  rw [hloc]
  generalize List.range' P.start (P.stop - P.start) = l
  induction l with
  | nil => simp
  | cons a l ih =>
    cases h : trialRecord P a with
    | none => simp [List.filterMap_cons, List.filter_cons, h, ih]
    | some r =>
      simp [List.filterMap_cons, List.filter_cons, h, ih,
        trialRecord_attempt P a r h]

/-- Counterexample to claim C8 as stated: the second of two workers over a
budget of 10 owns the slice `[5, 10)`; its five matching trials are
recorded with `attempt` fields `5..9` — the global loop variables — not the
worker-local trial indices `0..4` (nor the 1-based counts `1..5`). -/
theorem attempt_field_not_worker_local :
    (runWorker cP8).local_results.map (fun r => r.attempt) = [5, 6, 7, 8, 9]
    ∧ (runWorker cP8).local_results.map (fun r => r.attempt) ≠ [0, 1, 2, 3, 4]
    ∧ (runWorker cP8).local_results.map (fun r => r.attempt) ≠ [1, 2, 3, 4, 5] := by
  refine ⟨by decide, by decide, by decide⟩

/-- The records of the matching trials carry their trials' loop variables,
so their `attempt` fields are the matching attempts themselves. -/
theorem filterMap_trialRecord_attempts (P : WorkerParams) (l : List Nat) :
    (l.filterMap (trialRecord P)).map (fun r => r.attempt)
      = l.filter (fun a => (trialRecord P a).isSome) := by
  induction l with
  | nil => simp
  | cons a l ih =>
    cases h : trialRecord P a with
    | none => simp [List.filterMap_cons, List.filter_cons, h, ih]
    | some r =>
      simp [List.filterMap_cons, List.filter_cons, h, ih,
        trialRecord_attempt P a r h]

/-- Claim C10: a match whose channel send fails is permanently lost.  Every
found match is attempted exactly once on the match channel (send order =
discovery order, no retries); a record whose send failed is absent from the
coordinator's received log and hence from every snapshot (every `take`
prefix) of it; and the worker's thread-end report depends on its private
`local_results` only through the count. -/
theorem lost_match_is_dropped (P : WorkerParams) :
    (runWorker P).matchSends.map Prod.fst = (runWorker P).local_results
    ∧ (∀ r : VanityResult, (r, false) ∈ (runWorker P).matchSends →
        r ∉ receivedResults (runWorker P)
        ∧ ∀ k : Nat, r ∉ (receivedResults (runWorker P)).take k)
    ∧ (∀ workerIdx : Nat, ∀ s t : WorkerState,
        s.local_results.length = t.local_results.length →
        finalReport workerIdx s = finalReport workerIdx t) := by
  obtain ⟨hloc, hms⟩ := runWorker_core_fields P
  have h1 : (runWorker P).matchSends.map Prod.fst = (runWorker P).local_results := by
    rw [hloc, hms, foldl_matchSends_fst, foldl_local_results]
    rfl
  have hres : (runWorker P).local_results
      = (List.range' P.start (P.stop - P.start)).filterMap (trialRecord P) := by
    rw [hloc, foldl_local_results]
    rfl
  have hnodupmap : ((runWorker P).local_results.map (fun r => r.attempt)).Nodup := by
    rw [hres, filterMap_trialRecord_attempts]
    exact (List.nodup_range' P.start (P.stop - P.start)).filter _
  have hnodup : (runWorker P).local_results.Nodup := hnodupmap.of_map
  have hmsnodup : ((runWorker P).matchSends.map Prod.fst).Nodup := by
    rw [h1]
    exact hnodup
  refine ⟨h1, ?_, ?_⟩
  · intro r hmem
    have hnotin : r ∉ receivedResults (runWorker P) := by
      intro hr
      unfold receivedResults at hr
      obtain ⟨pr, hprmem, hprfst⟩ := List.mem_map.1 hr
      have hprms : pr ∈ (runWorker P).matchSends := List.mem_of_mem_filter hprmem
      have hprsnd : pr.2 = true := by
        simpa using List.of_mem_filter hprmem
      have heq : (r, false) = pr :=
        List.inj_on_of_nodup_map hmsnodup hmem hprms (by simp [hprfst])
      rw [← heq] at hprsnd
      simp at hprsnd
    exact ⟨hnotin, fun k hk => hnotin (List.take_subset k _ hk)⟩
  · intro workerIdx s t h
    unfold finalReport
    rw [h]
